import Mathlib

/-! # Chat server and client (server.cpp, client.cpp)

A shallow embedding of the line protocol handling of the chat server and of
the send path of the chat client.  C strings are lists of characters without
the terminating NUL; a character array is a list of characters that may hold
NULs, and `cstr` reads the C string stored at its start.

The server is one loop around `select`.  One pass of it is the function
`step`; what the operating system decides during a pass (which descriptors
are readable, what `accept` and `recv` return, whether a `send` succeeds) is
an argument of the pass, and the calls `send` and `close` are recorded in a
log.

The arrays `clientName`, `message` and `buffer` are written without a bound
check.  A write past the end of one of them sets the flag `overrun` of the
pass.  From there on the C standard leaves the behaviour undefined, and what
the program then does depends on what lies behind the array: the model goes
on with the data flow of the source as if the array had been large enough,
and a statement is one about the program only where it assumes the flag
false or says that it is set.
-/

namespace ChatServer

/-! ## Constants of server.cpp -/

def MAX_NICKNAME_LENGTH : Nat := 12

def MAX_MESSAGE_LENGTH : Nat := 255

def BUFFER_SIZE : Nat := 1024

def SUPPORTED_PROTOCOL : List Char := "HELLO 1\n".toList

def ALLOWED_NAME : List Char := "OK\n".toList

def DENIED_NAME : List Char := "ERR Invalid name!\n".toList

def DENIED_MESSAGE : List Char := "ERROR Invalid message!\n".toList

/-! ## POSIX extended regular expressions, as far as `isValidName` uses them -/

/-- One member of a bracket expression: a range `lo-hi` or a single
character.  In the C locale (the program never calls `setlocale`) a range is
the interval of character codes. -/
inductive BracketItem where
  | range (lo hi : Char)
  | single (c : Char)

/-- Does the member of a bracket expression contain the character? -/
def BracketItem.accepts : BracketItem → Char → Bool
  | .range lo hi, c => decide (lo.toNat ≤ c.toNat) && decide (c.toNat ≤ hi.toNat)
  | .single d, c => decide (c = d)

/-- A bracket expression matches the characters of its members. -/
def inBracket (items : List BracketItem) (c : Char) : Bool :=
  items.any fun it => it.accepts c

/-- The pieces of a regular expression that the name pattern is built from:
the anchors `^` and `$`, and a bracket expression under an interval
`{lo,hi}`. -/
inductive Re where
  | bol
  | eol
  | repeatSet (items : List BracketItem) (lo hi : Nat)

/-- Does the concatenation of the pieces match a prefix of `s`?  `atStart`
tells whether `s` is the whole subject string.  Without `REG_NEWLINE` the
anchors match only at the two ends of the subject string. -/
def matchHere : List Re → Bool → List Char → Bool
  | [], _, _ => true
  | .bol :: r, atStart, s => atStart && matchHere r atStart s
  | .eol :: r, atStart, s => s.isEmpty && matchHere r atStart s
  | .repeatSet items lo hi :: r, atStart, s =>
      (List.range (hi + 1)).any fun k =>
        decide (lo ≤ k) && decide (k ≤ s.length) && (s.take k).all (inBracket items)
          && matchHere r (atStart && decide (k = 0)) (s.drop k)

/-- `regexec(&regex, s, 0, NULL, 0) == 0`: the expression matches somewhere
in `s`. -/
def regexec (re : List Re) (s : List Char) : Bool :=
  (List.range (s.length + 1)).any fun i => matchHere re (decide (i = 0)) (s.drop i)

/-- The bracket expression `[A-Za-z0-9_]`. -/
def nameClass : List BracketItem :=
  [.range 'A' 'Z', .range 'a' 'z', .range '0' '9', .single '_']

/-- The compiled pattern `^[A-Za-z0-9_]{1,12}$`. -/
def nameRegex : List Re := [.bol, .repeatSet nameClass 1 12, .eol]

/-- `isValidName` of server.cpp: `regexec` of the name pattern returns 0.
(`regcomp` does not fail on this pattern.) -/
def isValidName (name : List Char) : Bool := regexec nameRegex name

/-! ## C strings and the two `sscanf` calls -/

/-- The terminating character of a C string. -/
def NUL : Char := Char.ofNat 0

/-- The C string stored at the start of a character array: the characters
before the first NUL. -/
def cstr (a : List Char) : List Char := a.takeWhile fun c => !decide (c = NUL)

/-- `isspace` in the C locale: space, and the controls `\t \n \v \f \r`. -/
def isspace (c : Char) : Bool :=
  decide (c.toNat = 32) || (decide (9 ≤ c.toNat) && decide (c.toNat ≤ 13))

/-- Ordinary characters of a `scanf` format: each one has to equal the next
input character.  The result is the input that is left. -/
def matchLiteral : List Char → List Char → Option (List Char)
  | [], s => some s
  | _ :: _, [] => none
  | p :: ps, c :: s => if p = c then matchLiteral ps s else none

/-- `sscanf(buffer, "NICK %s\n", clientName) == 1`, with the token stored in
`clientName`.  The blank of the format (and `%s` itself) skips any run of
white space, also an empty one; `%s` then takes the characters up to the next
white space and fails when there are none.  What follows the conversion has
no influence on the count returned. -/
def sscanfNick (input : List Char) : Option (List Char) :=
  match matchLiteral "NICK".toList input with
  | none => none
  | some rest =>
      let token := (rest.dropWhile isspace).takeWhile fun c => !isspace c
      if token.isEmpty then none else some token

/-- `sscanf(buffer, "MSG %[^\n]", message) == 1`, with the text stored in
`message`.  The blank of the format skips any run of white space, newlines
included; `%[^\n]` then takes the characters up to the next newline and fails
when there are none. -/
def sscanfMsg (input : List Char) : Option (List Char) :=
  match matchLiteral "MSG".toList input with
  | none => none
  | some rest =>
      let text := (rest.dropWhile isspace).takeWhile fun c => !decide (c = '\n')
      if text.isEmpty then none else some text

/-- `snprintf(dst, size, ...)`: at most `size - 1` characters of the formatted
text are stored, followed by the terminator. -/
def snprintf (size : Nat) (formatted : List Char) : List Char := formatted.take (size - 1)

/-- A C string and its terminator fit an array of `size` characters. -/
def fitsArray (size : Nat) (s : List Char) : Bool := decide (s.length + 1 ≤ size)

/-! ## The connection table -/

/-- `struct ClientInfo`: a slot of the table.  A slot is free when `socketfd`
is -1; `nickname` is the C string in the array of `MAX_NICKNAME_LENGTH + 1`
characters. -/
structure ClientInfo where
  socketfd : Int
  verified : Bool
  nickname : List Char
  deriving DecidableEq

/-- What the server does on its sockets. -/
inductive Event where
  | send (fd : Int) (bytes : List Char)
  | close (fd : Int)
  deriving DecidableEq

/-- The assignments of `removeClient`; its `close` is logged by the callers
below. -/
def removeClient (client : ClientInfo) : ClientInfo :=
  { client with socketfd := -1, verified := false }

/-- The variables of one pass of the `while` loop.  `log` lists the calls on
sockets made so far in this pass.  `overrun` records that a write went past
the end of a fixed-size array; the C standard leaves the behaviour undefined
from there on.  With `overrun` set the other fields are the data flow of the
source as if the array had been large enough, not a statement on where the
bytes written past the array land. -/
structure Loop where
  clients : List ClientInfo
  buffer : List Char
  log : List Event
  overrun : Bool

/-- `removeClient(client)` for the client in slot `i`. -/
def removeClientAt (st : Loop) (i : Nat) : Loop :=
  match st.clients[i]? with
  | none => st
  | some client =>
      { st with clients := st.clients.set i (removeClient client),
                log := st.log ++ [Event.close client.socketfd] }

/-- `if (send(fd, bytes, len, flags) < 0) removeClient(client);` for the
client in slot `i`.  A `send` on the descriptor -1 of a free slot fails
(`EBADF`).  Whether a `send` on another descriptor succeeds is the
environment's choice: `sendOk n` is the outcome of a `send` issued after `n`
earlier socket calls of the pass. -/
def sendOrRemove (sendOk : Nat → Bool) (st : Loop) (i : Nat) (fd : Int)
    (bytes : List Char) : Loop :=
  let st1 := { st with log := st.log ++ [Event.send fd bytes] }
  if decide (fd ≠ -1) && sendOk st.log.length then st1 else removeClientAt st1 i

/-- The branch `if (!client.verified)` for the client in slot `i`.  `sscanf`
stores the token and its terminator in `clientName[MAX_NICKNAME_LENGTH]`
without a bound: a token of 12 or more characters is written past the end of
the array, which sets `overrun`. -/
def handleUnverified (sendOk : Nat → Bool) (st : Loop) (i : Nat) (clientSocket : Int) : Loop :=
  match sscanfNick (cstr st.buffer) with
  | none => sendOrRemove sendOk st i clientSocket DENIED_NAME
  | some clientName =>
      let st0 := { st with overrun := st.overrun || !fitsArray MAX_NICKNAME_LENGTH clientName }
      if isValidName clientName && decide ((cstr st.buffer).length ≤ MAX_NICKNAME_LENGTH + 6) then
        match st0.clients[i]? with
        | none => st0
        | some client =>
            let named : ClientInfo :=
              { client with verified := true, nickname := clientName.take MAX_NICKNAME_LENGTH }
            let st1 := { st0 with clients := st0.clients.set i named }
            sendOrRemove sendOk st1 i clientSocket ALLOWED_NAME
      else sendOrRemove sendOk st0 i clientSocket DENIED_NAME

/-- The loop `for (auto &client : clients)` that echoes a message: every slot
whose `socketfd` is not -1 is sent `echoMessage`, and is removed when that
`send` fails. -/
def broadcastGo (sendOk : Nat → Bool) (echoMessage : List Char) :
    List ClientInfo → List Event → List ClientInfo × List Event
  | [], log => ([], log)
  | client :: rest, log =>
      if client.socketfd ≠ -1 then
        let log1 := log ++ [Event.send client.socketfd echoMessage]
        if sendOk log.length then
          let r := broadcastGo sendOk echoMessage rest log1
          (client :: r.1, r.2)
        else
          let r := broadcastGo sendOk echoMessage rest (log1 ++ [Event.close client.socketfd])
          (removeClient client :: r.1, r.2)
      else
        let r := broadcastGo sendOk echoMessage rest log
        (client :: r.1, r.2)

/-- The echo loop on the variables of the pass. -/
def broadcast (sendOk : Nat → Bool) (echoMessage : List Char) (st : Loop) : Loop :=
  let r := broadcastGo sendOk echoMessage st.clients st.log
  { st with clients := r.1, log := r.2 }

/-- The line built by `snprintf(echoMessage, sizeof(echoMessage), "MSG %s %s\n", ...)`. -/
def echoLine (nickname message : List Char) : List Char :=
  snprintf (MAX_MESSAGE_LENGTH + MAX_NICKNAME_LENGTH + 6)
    ("MSG ".toList ++ nickname ++ " ".toList ++ message ++ "\n".toList)

/-- The `else` branch of `if (!client.verified)` for the client in slot `i`.
`sscanf` stores the text and its terminator in `message[MAX_MESSAGE_LENGTH]`
without a bound: a text of 255 or more characters is written past the end of
the array, which sets `overrun`.  What `snprintf` then reads back from
`message` depends on what lies behind the array; the line below is the one
of a text that is read back as it was stored. -/
def handleVerified (sendOk : Nat → Bool) (st : Loop) (i : Nat) (clientSocket : Int)
    (nickname : List Char) : Loop :=
  match sscanfMsg (cstr st.buffer) with
  | some message =>
      broadcast sendOk (echoLine nickname message)
        { st with overrun := st.overrun || !fitsArray MAX_MESSAGE_LENGTH message }
  | none =>
      sendOrRemove sendOk st i clientSocket (DENIED_MESSAGE.take DENIED_NAME.length)

/-- The protocol handler: the code under `// OK`, after the terminator has
been stored. -/
def handleData (sendOk : Nat → Bool) (st : Loop) (i : Nat) : Loop :=
  match st.clients[i]? with
  | none => st
  | some client =>
      if !client.verified then handleUnverified sendOk st i client.socketfd
      else handleVerified sendOk st i client.socketfd client.nickname

/-! ## Reading from a client -/

/-- The conversion of the `ssize_t` result of `recv` to `size_t bytesRead`. -/
def toSizeT (x : Int) : Nat := (x % 2 ^ 64).toNat

/-- The result of `recv(clientSocket, buffer, BUFFER_SIZE, flags)`: `none` is
an error (-1), `some data` the bytes received, none at all when the peer has
closed. -/
def recvReturn : Option (List Char) → Int
  | none => -1
  | some data => ((data.take BUFFER_SIZE).length : Nat)

/-- The buffer after `recv`: the bytes received overwrite its start, what is
behind them stays. -/
def recvStore (buffer : List Char) : Option (List Char) → List Char
  | none => buffer
  | some data => data.take BUFFER_SIZE ++ buffer.drop (data.take BUFFER_SIZE).length

/-- `buffer[bytesRead] = 0`.  With `bytesRead` at or beyond `BUFFER_SIZE` the
store lands outside the buffer, on whatever lies there: `overrun` is set and
the model does not follow the byte. -/
def terminate (st : Loop) (bytesRead : Nat) : Loop :=
  if bytesRead < st.buffer.length then { st with buffer := st.buffer.set bytesRead NUL }
  else { st with overrun := true }

/-- One pass of the loop over the clients in the `else` branch of `main`, for
slot `i`.  `readfds` lists the descriptors for which `FD_ISSET` is true after
`select`; the loop tests every slot, also a free one, so the list may hold
-1 (see `selectSet`).  `recv i` is what `recv` delivers for this slot; on
the descriptor -1 `recv` fails (`EBADF`). -/
def serveSlot (sendOk : Nat → Bool) (recv : Nat → Option (List Char)) (readfds : List Int)
    (st : Loop) (i : Nat) : Loop :=
  match st.clients[i]? with
  | none => st
  | some client =>
      if client.socketfd ∈ readfds then
        let received := if client.socketfd = -1 then none else recv i
        let bytesRead : Nat := toSizeT (recvReturn received)
        let st1 := { st with buffer := recvStore st.buffer received }
        if bytesRead = 0 then removeClientAt st1 i
        else if bytesRead < 0 then removeClientAt st1 i
        else handleData sendOk (terminate st1 bytesRead) i
      else st

/-! ## One pass of the `while` loop -/

/-- What lives across the passes: the listening socket and the table
`clients`. -/
structure Server where
  socketfd : Int
  clients : List ClientInfo

/-- What the environment decides during one pass.  `freeSlotSet` is the
value of `FD_ISSET(-1, &readfds)`: the loop over the clients tests the
descriptor of every slot, POSIX leaves the result undefined for a negative
descriptor, and the macro then reads a bit of the set that belongs to
another descriptor. -/
structure Env where
  selectOk : Bool
  ready : Int → Bool
  accepted : Int
  recv : Nat → Option (List Char)
  sendOk : Nat → Bool
  freeSlotSet : Bool

/-- The loop that stores an accepted socket in the first slot whose
`socketfd` is -1; `none` when there is no such slot. -/
def storeClient (clientSocket : Int) : List ClientInfo → Option (List ClientInfo)
  | [] => none
  | client :: rest =>
      if client.socketfd = -1 then some ({ client with socketfd := clientSocket } :: rest)
      else (storeClient clientSocket rest).map fun r => client :: r

/-- The descriptors for which `FD_ISSET` is true after `select`: those
registered with `FD_SET` and readable, and -1 when the environment makes the
test of a free slot true. -/
def selectSet (env : Env) (s : Server) : List Int :=
  (s.socketfd :: (s.clients.filter fun c => decide (0 < c.socketfd)).map fun c => c.socketfd).filter
    env.ready ++ (if env.freeSlotSet then [-1] else [])

/-- The start of a pass: `memset(buffer, 0, BUFFER_SIZE)`, nothing logged. -/
def startLoop (s : Server) : Loop :=
  { clients := s.clients, buffer := List.replicate BUFFER_SIZE NUL, log := [], overrun := false }

/-- One pass of `while (running)`: `none` is `exit(EXIT_FAILURE)`. -/
def step (env : Env) (s : Server) : Option Loop :=
  if !env.selectOk then none
  else
    let readfds := selectSet env s
    if s.socketfd ∈ readfds then
      if env.accepted < 0 then none
      else
        let st := { startLoop s with log := [Event.send env.accepted SUPPORTED_PROTOCOL] }
        if !env.sendOk 0 then some { st with log := st.log ++ [Event.close env.accepted] }
        else
          match storeClient env.accepted s.clients with
          | some clients => some { st with clients := clients }
          | none => some { st with log := st.log ++ [Event.close env.accepted] }
    else
      some ((List.range s.clients.length).foldl (serveSlot env.sendOk env.recv readfds)
        (startLoop s))

/-- The `send` calls of a log, in order: descriptor and bytes. -/
def sendsOf : List Event → List (Int × List Char)
  | [] => []
  | Event.send fd bytes :: rest => (fd, bytes) :: sendsOf rest
  | Event.close _ :: rest => sendsOf rest

/-- The slots that hold a socket, in slot order. -/
def liveSlots (clients : List ClientInfo) : List ClientInfo :=
  clients.filter fun c => decide (c.socketfd ≠ -1)

/-- Every free slot has `verified` false. -/
def FreeUnverified (clients : List ClientInfo) : Prop :=
  ∀ c ∈ clients, c.socketfd = -1 → c.verified = false

/-! ## Character classes the statements use -/

def isAsciiLetter (c : Char) : Prop :=
  (65 ≤ c.toNat ∧ c.toNat ≤ 90) ∨ (97 ≤ c.toNat ∧ c.toNat ≤ 122)

def isAsciiDigit (c : Char) : Prop := 48 ≤ c.toNat ∧ c.toNat ≤ 57

def isNameChar (c : Char) : Prop := isAsciiLetter c ∨ isAsciiDigit c ∨ c = '_'

/-! ## States and passes the statements are tried on -/

/-- A pass that has reached slot 0, held by an unverified client on
descriptor 5. -/
def loopUnverified : Loop :=
  { clients := [{ socketfd := 5, verified := false, nickname := [] }],
    buffer := List.replicate BUFFER_SIZE NUL, log := [], overrun := false }

/-- A pass that has reached slot 0, whose unverified client has sent
`NICK bob`. -/
def loopNick : Loop :=
  { clients := [{ socketfd := 5, verified := false, nickname := [] }],
    buffer := "NICK bob\n".toList ++ List.replicate (BUFFER_SIZE - 9) NUL,
    log := [], overrun := false }

/-- A pass that has reached slot 0, whose unverified client has sent
`NICK bo`, a NUL, and `b` with a newline. -/
def loopNickNul : Loop :=
  { clients := [{ socketfd := 5, verified := false, nickname := [] }],
    buffer := "NICK bo".toList ++ NUL :: "b\n".toList ++ List.replicate (BUFFER_SIZE - 10) NUL,
    log := [], overrun := false }

/-- The receive buffer after `line` has been read into the cleared array. -/
def bufferOf (line : List Char) : List Char :=
  line ++ List.replicate (BUFFER_SIZE - line.length) NUL

/-- A pass that has reached slot 0: the verified client there has sent
`line`, slot 1 is free and slot 2 holds a client that is not verified. -/
def loopChat (nickname line : List Char) : Loop :=
  { clients := [{ socketfd := 4, verified := true, nickname := nickname },
                { socketfd := -1, verified := false, nickname := [] },
                { socketfd := 5, verified := false, nickname := [] }],
    buffer := bufferOf line, log := [], overrun := false }

/-- A nickname of the greatest length. -/
def nick12 : List Char := "abcdefghijkl".toList

/-- A text of the greatest length. -/
def text255 : List Char := List.replicate 255 'a'

/-- A server that listens on descriptor 3 and holds the verified clients
`alice` and `bob`. -/
def serverTwo : Server :=
  { socketfd := 3,
    clients := [{ socketfd := 4, verified := true, nickname := "alice".toList },
                { socketfd := 5, verified := true, nickname := "bob".toList }] }

/-- A pass in which both clients are readable: `alice` has sent `MSG yo`,
and the read from `bob` fails. -/
def envReadError : Env :=
  { selectOk := true, ready := fun fd => decide (fd ≠ 3), accepted := 0,
    recv := fun i => if i = 0 then some "MSG yo\n".toList else none,
    sendOk := fun _ => true, freeSlotSet := false }

/-- A server that listens on descriptor 3 and holds a client that is not
verified, in slot 0 on descriptor 4, and the verified client `bob`. -/
def serverGuest : Server :=
  { socketfd := 3,
    clients := [{ socketfd := 4, verified := false, nickname := [] },
                { socketfd := 5, verified := true, nickname := "bob".toList }] }

/-- A pass in which both clients are readable: the client that is not
verified has sent `MSG spam`, and the read from `bob` fails. -/
def envSpam : Env :=
  { selectOk := true, ready := fun fd => decide (fd ≠ 3), accepted := 0,
    recv := fun i => if i = 0 then some "MSG spam\n".toList else none,
    sendOk := fun _ => true, freeSlotSet := false }

end ChatServer

/-! # The client: the standard-input branch of the session loop -/

namespace ChatClient

open ChatServer (NUL cstr snprintf)

/-- `MAX_MESSAGE_LENGTH` of client.cpp. -/
def MAX_MESSAGE_LENGTH : Nat := 255

/-- The characters `fgets` stores when `room` more fit: it stops after a
newline, at the end of the input, or when the room is used up. -/
def fgetsGo : Nat → List Char → List Char
  | 0, _ => []
  | _ + 1, [] => []
  | room + 1, c :: rest => if c = '\n' then [c] else c :: fgetsGo room rest

/-- `fgets(input, size, stdin)`: the characters it stores, a line with its
newline, of at most `size - 1` characters.  At the end of the input there
are none: the C function then returns `NULL` and leaves the array as it
was (see `inputAfterFgets`). -/
def fgets (size : Nat) (stdin : List Char) : List Char := fgetsGo (size - 1) stdin

/-- The C string in the array `input` after `fgets(input, sizeof(input), stdin)`,
whose result the code does not test: the line read, or at the end of the
input what the array held before. -/
def inputAfterFgets (input stdin : List Char) : List Char :=
  if stdin.isEmpty then cstr input else cstr (fgets MAX_MESSAGE_LENGTH stdin)

/-- A character array after `snprintf` has stored `text` in it: the text,
the terminator, and behind it whatever the array held before. -/
def storeString (array text : List Char) : List Char :=
  text ++ NUL :: array.drop (text.length + 1)

/-- The bytes handed to `send` in the branch `FD_ISSET(STDIN_FILENO, &readFds)`:
`input` and `formattedMessage` are arrays with indeterminate content,
`formattedMessage` of `MAX_MESSAGE_LENGTH + MAX_MESSAGE_LENGTH + 4`
characters; `fgets` reads into `input`, `snprintf` stores `MSG ` and the
string of `input` in `formattedMessage`, and `send` is given that array with
`sizeof(formattedMessage)` as the length. -/
def stdinBranchFrom (input formattedMessage stdin : List Char) : List Char :=
  let size := MAX_MESSAGE_LENGTH + MAX_MESSAGE_LENGTH + 4
  let stored := storeString formattedMessage
    (snprintf size ("MSG ".toList ++ inputAfterFgets input stdin))
  stored.take size

/-- The branch for a read that delivers a line: what `input` held before does
not matter then, and it is taken to be empty. -/
def stdinBranch (formattedMessage stdin : List Char) : List Char :=
  stdinBranchFrom [] formattedMessage stdin

end ChatClient

/-! # Theorems on the server -/

namespace ChatServer

/-! ## Lemmas on the name pattern -/

theorem inBracket_nameClass (c : Char) : inBracket nameClass c = true ↔ isNameChar c := by
  simp only [inBracket, nameClass, List.any_cons, List.any_nil, BracketItem.accepts,
    isNameChar, isAsciiLetter, isAsciiDigit, Bool.or_eq_true, Bool.and_eq_true,
    decide_eq_true_eq, Bool.or_false]
  have hA : ('A' : Char).toNat = 65 := by decide
  have hZ : ('Z' : Char).toNat = 90 := by decide
  have ha : ('a' : Char).toNat = 97 := by decide
  have hz : ('z' : Char).toNat = 122 := by decide
  have h0 : ('0' : Char).toNat = 48 := by decide
  have h9 : ('9' : Char).toNat = 57 := by decide
  rw [hA, hZ, ha, hz, h0, h9]
  tauto

theorem isValidName_iff_all (s : List Char) :
    isValidName s = true ↔
      1 ≤ s.length ∧ s.length ≤ 12 ∧ s.all (inBracket nameClass) = true := by
  unfold isValidName regexec nameRegex
  simp only [matchHere, List.any_eq_true, List.mem_range, Bool.and_eq_true,
    decide_eq_true_eq, List.isEmpty_iff, Bool.and_true, Bool.true_and]
  constructor
  · rintro ⟨i, -, hi0, k, hk, ⟨⟨⟨h1, hk2⟩, hall⟩, hnil⟩⟩
    subst hi0
    simp only [List.drop_zero] at *
    have hlen : s.length ≤ k := by
      have := congrArg List.length hnil
      simp only [List.length_drop, List.length_nil] at this
      omega
    rw [List.take_of_length_le hlen] at hall
    exact ⟨by omega, by omega, hall⟩
  · rintro ⟨h1, h12, hall⟩
    refine ⟨0, by omega, rfl, s.length, by omega, ⟨⟨h1, ?_⟩, ?_⟩, ?_⟩
    · simp
    · simpa using hall
    · simp

/-! ## The name validator -/

/-- C4: `isValidName s` is true exactly when the length of `s` lies between 1
and 12 and every character of `s` is an ASCII letter, an ASCII digit or an
underscore. -/
theorem isValidName_spec (s : List Char) :
    isValidName s = true ↔ (1 ≤ s.length ∧ s.length ≤ 12) ∧ ∀ c ∈ s, isNameChar c := by
  rw [isValidName_iff_all, List.all_eq_true]
  simp only [inBracket_nameClass]
  tauto

/-! ## Replies -/

theorem set_same {α : Type} (l : List α) (i : Nat) (a : α) (h : l[i]? = some a) :
    l.set i a = l := by
  induction l generalizing i with
  | nil => rfl
  | cons b t ih =>
      cases i with
      | zero => simp at h; simp [h]
      | succ j => simp at h; simp [ih j h]

theorem removeClientAt_log (st : Loop) (i : Nat) (client : ClientInfo)
    (h : st.clients[i]? = some client) :
    (removeClientAt st i).log = st.log ++ [Event.close client.socketfd] := by
  simp [removeClientAt, h]

theorem removeClientAt_clients (st : Loop) (i : Nat) (client : ClientInfo)
    (h : st.clients[i]? = some client) :
    (removeClientAt st i).clients = st.clients.set i (removeClient client) := by
  simp [removeClientAt, h]

theorem sendOrRemove_ok (sendOk : Nat → Bool) (st : Loop) (i : Nat) (fd : Int)
    (bytes : List Char) (hlive : fd ≠ -1) (hok : sendOk st.log.length = true) :
    sendOrRemove sendOk st i fd bytes = { st with log := st.log ++ [Event.send fd bytes] } := by
  simp [sendOrRemove, hok, hlive]

theorem sendOrRemove_fail (sendOk : Nat → Bool) (st : Loop) (i : Nat) (fd : Int)
    (bytes : List Char) (client : ClientInfo) (h : st.clients[i]? = some client)
    (hfail : fd = -1 ∨ sendOk st.log.length = false) :
    sendOrRemove sendOk st i fd bytes =
      { st with clients := st.clients.set i (removeClient client),
                log := st.log ++ [Event.send fd bytes, Event.close client.socketfd] } := by
  have hcond : (decide (fd ≠ -1) && sendOk st.log.length) = false := by
    rcases hfail with hfd | hok
    · simp [hfd]
    · simp [hok]
  unfold sendOrRemove
  simp only [hcond, Bool.false_eq_true, if_false]
  simp [removeClientAt, h]

/-- The socket calls of a reply: one `send`, and the `close` of the slot when
the `send` fails. -/
theorem sendOrRemove_log (sendOk : Nat → Bool) (st : Loop) (i : Nat) (fd : Int)
    (bytes : List Char) (client : ClientInfo) (h : st.clients[i]? = some client) :
    (sendOrRemove sendOk st i fd bytes).log = st.log ++ [Event.send fd bytes] ∨
    (sendOrRemove sendOk st i fd bytes).log =
      st.log ++ [Event.send fd bytes, Event.close client.socketfd] := by
  by_cases hlive : fd = -1
  · right; rw [sendOrRemove_fail sendOk st i fd bytes client h (Or.inl hlive)]
  · cases hok : sendOk st.log.length
    · right; rw [sendOrRemove_fail sendOk st i fd bytes client h (Or.inr hok)]
    · left; rw [sendOrRemove_ok sendOk st i fd bytes hlive hok]

theorem removeClientAt_overrun (st : Loop) (i : Nat) :
    (removeClientAt st i).overrun = st.overrun := by
  unfold removeClientAt; split <;> rfl

theorem sendOrRemove_overrun (sendOk : Nat → Bool) (st : Loop) (i : Nat) (fd : Int)
    (bytes : List Char) : (sendOrRemove sendOk st i fd bytes).overrun = st.overrun := by
  unfold sendOrRemove
  simp only []
  split
  · rfl
  · rw [removeClientAt_overrun]

theorem not_fitsArray (size : Nat) (s : List Char) :
    (!fitsArray size s) = decide (size ≤ s.length) := by
  unfold fitsArray
  by_cases h : size ≤ s.length
  · simp [h]; omega
  · simp [h]; omega

theorem handleUnverified_log (sendOk : Nat → Bool) (st : Loop) (i : Nat) (client : ClientInfo)
    (h : st.clients[i]? = some client) :
    ∃ reply, (reply = ALLOWED_NAME ∨ reply = DENIED_NAME) ∧
      ((handleUnverified sendOk st i client.socketfd).log =
          st.log ++ [Event.send client.socketfd reply] ∨
       (handleUnverified sendOk st i client.socketfd).log =
          st.log ++ [Event.send client.socketfd reply, Event.close client.socketfd]) := by
  unfold handleUnverified
  split
  · exact ⟨DENIED_NAME, Or.inr rfl, sendOrRemove_log sendOk st i _ _ client h⟩
  · rename_i clientName _
    simp only []
    split
    · simp only [h]
      refine ⟨ALLOWED_NAME, Or.inl rfl, ?_⟩
      have hi : i < st.clients.length := by
        rcases List.getElem?_eq_some.1 h with ⟨hi, -⟩
        exact hi
      exact sendOrRemove_log sendOk _ i _ _
        { client with verified := true, nickname := clientName.take MAX_NICKNAME_LENGTH }
        (by simp [hi])
    · exact ⟨DENIED_NAME, Or.inr rfl, sendOrRemove_log sendOk _ i _ _ client h⟩

theorem terminate_clients (st : Loop) (n : Nat) : (terminate st n).clients = st.clients := by
  unfold terminate; split <;> rfl

theorem terminate_log (st : Loop) (n : Nat) : (terminate st n).log = st.log := by
  unfold terminate; split <;> rfl

theorem not_msg_ALLOWED_NAME : ¬ "MSG".toList <+: ALLOWED_NAME := by decide

theorem not_msg_DENIED_NAME : ¬ "MSG".toList <+: DENIED_NAME := by decide

/-- The read of one slot whose client is not verified, in a pass that stays
inside its arrays: the socket calls that follow contain no `send` to another
descriptor than the client's own, and each `send` carries the `OK` line or
the `ERR` line, never a line that starts with `MSG`. -/
theorem unverified_slot_replies (sendOk : Nat → Bool) (recv : Nat → Option (List Char))
    (readfds : List Int) (st : Loop) (i : Nat) (client : ClientInfo)
    (h : st.clients[i]? = some client) (hunv : client.verified = false)
    (_hdefined : (serveSlot sendOk recv readfds st i).overrun = false) :
    ∃ events, (serveSlot sendOk recv readfds st i).log = st.log ++ events ∧
      events.length ≤ 2 ∧
      ∀ fd bytes, Event.send fd bytes ∈ events →
        fd = client.socketfd ∧ (bytes = ALLOWED_NAME ∨ bytes = DENIED_NAME) ∧
          ¬ "MSG".toList <+: bytes := by
  unfold serveSlot
  simp only [h]
  generalize (if client.socketfd = -1 then none else recv i) = received
  split
  · split
    · refine ⟨[Event.close client.socketfd], ?_, by simp, by simp⟩
      exact removeClientAt_log _ i client h
    · split
      · rename_i hneg
        exact absurd hneg (Nat.not_lt_zero _)
      · unfold handleData
        simp only [terminate_clients, h, hunv, Bool.not_false, if_true]
        obtain ⟨reply, hreply, hlog⟩ :=
          handleUnverified_log sendOk
            (terminate { st with buffer := recvStore st.buffer received }
              (toSizeT (recvReturn received))) i client
            (by simp only [terminate_clients]; exact h)
        simp only [terminate_log] at hlog
        have hnot : ¬ "MSG".toList <+: reply := by
          rcases hreply with hr | hr <;> subst hr
          · exact not_msg_ALLOWED_NAME
          · exact not_msg_DENIED_NAME
        rcases hlog with hlog | hlog
        · refine ⟨[Event.send client.socketfd reply], hlog, by simp, ?_⟩
          intro fd bytes hmem
          simp only [List.mem_singleton, Event.send.injEq] at hmem
          obtain ⟨rfl, rfl⟩ := hmem
          exact ⟨rfl, hreply, hnot⟩
        · refine ⟨[Event.send client.socketfd reply, Event.close client.socketfd], hlog,
            by simp, ?_⟩
          intro fd bytes hmem
          simp only [List.mem_cons, Event.send.injEq, List.mem_singleton, reduceCtorEq,
            or_false, List.not_mem_nil] at hmem
          obtain ⟨rfl, rfl⟩ := hmem
          exact ⟨rfl, hreply, hnot⟩
  · exact ⟨[], by simp, by simp, by simp⟩

/-! ## Scanning a well-formed line -/

theorem isspace_space : isspace ' ' = true := by decide

theorem isspace_newline : isspace '\n' = true := by decide

theorem sscanfNick_line (name : List Char) (hne : name ≠ [])
    (hws : ∀ c ∈ name, isspace c = false) :
    sscanfNick ("NICK ".toList ++ name ++ "\n".toList) = some name := by
  have hlit : matchLiteral "NICK".toList ("NICK ".toList ++ name ++ "\n".toList)
      = some (' ' :: (name ++ ['\n'])) := by
    show matchLiteral ['N', 'I', 'C', 'K'] ('N' :: 'I' :: 'C' :: 'K' :: ' ' :: (name ++ ['\n'])) = _
    simp [matchLiteral]
  obtain ⟨a, t, rfl⟩ := List.exists_cons_of_ne_nil hne
  have ha : isspace a = false := hws a (List.mem_cons_self _ _)
  unfold sscanfNick
  rw [hlit]
  simp only []
  rw [List.dropWhile_cons_of_pos isspace_space, List.cons_append,
    List.dropWhile_cons_of_neg (by simp [ha]), ← List.cons_append,
    List.takeWhile_append_of_pos (by intro c hc; simp [hws c hc])]
  simp [isspace_newline]

theorem sscanfMsg_line (text : List Char) (hne : text ≠ [])
    (hhead : ∀ c ∈ text.head?, isspace c = false) (hnl : '\n' ∉ text) :
    sscanfMsg ("MSG ".toList ++ text ++ "\n".toList) = some text := by
  have hlit : matchLiteral "MSG".toList ("MSG ".toList ++ text ++ "\n".toList)
      = some (' ' :: (text ++ ['\n'])) := by
    show matchLiteral ['M', 'S', 'G'] ('M' :: 'S' :: 'G' :: ' ' :: (text ++ ['\n'])) = _
    simp [matchLiteral]
  obtain ⟨a, t, rfl⟩ := List.exists_cons_of_ne_nil hne
  have ha : isspace a = false := hhead a (by simp)
  unfold sscanfMsg
  rw [hlit]
  simp only []
  rw [List.dropWhile_cons_of_pos isspace_space, List.cons_append,
    List.dropWhile_cons_of_neg (by simp [ha]), ← List.cons_append,
    List.takeWhile_append_of_pos (by
      intro c hc
      have : c ≠ '\n' := fun hcn => hnl (hcn ▸ hc)
      simp [this])]
  simp

/-! ## Registration -/

theorem handleUnverified_valid (sendOk : Nat → Bool) (st : Loop) (i : Nat) (client : ClientInfo)
    (name : List Char) (h : st.clients[i]? = some client)
    (hscan : sscanfNick (cstr st.buffer) = some name) (hvalid : isValidName name = true)
    (hlen : (cstr st.buffer).length ≤ MAX_NICKNAME_LENGTH + 6) :
    handleUnverified sendOk st i client.socketfd =
      sendOrRemove sendOk
        { st with clients := st.clients.set i { client with verified := true, nickname := name },
                  overrun := st.overrun || !fitsArray MAX_NICKNAME_LENGTH name }
        i client.socketfd ALLOWED_NAME := by
  have h12 : name.length ≤ MAX_NICKNAME_LENGTH := ((isValidName_iff_all name).1 hvalid).2.1
  unfold handleUnverified
  rw [hscan]
  simp only [hvalid, hlen, decide_True, Bool.and_self, if_true, h, List.take_of_length_le h12]

theorem handleUnverified_invalid (sendOk : Nat → Bool) (st : Loop) (i : Nat) (fd : Int)
    (name : List Char) (hscan : sscanfNick (cstr st.buffer) = some name)
    (hvalid : isValidName name = false) :
    handleUnverified sendOk st i fd =
      sendOrRemove sendOk
        { st with overrun := st.overrun || !fitsArray MAX_NICKNAME_LENGTH name } i fd
        DENIED_NAME := by
  unfold handleUnverified
  rw [hscan]
  simp [hvalid]

/-- C2, amended: an unverified client that holds a socket sends `NICK <name>`
and a newline, the name being non-empty and free of white space and of NUL,
so that the line is the C string in the receive buffer.  The reply is `OK`
when `isValidName name` holds and `ERR Invalid name!` otherwise.  When the
reply is sent, a valid name leaves the client verified under exactly that
nickname and an invalid one leaves it as it was; when the `send` fails the
slot is closed and freed, with `verified` false.  A name of 12 or more
characters is written past the end of `clientName`: `overrun` is set, and
the rest is then the data flow as if the array had been large enough. -/
theorem nick_line_reply (sendOk : Nat → Bool) (st : Loop) (i : Nat) (client : ClientInfo)
    (name : List Char) (h : st.clients[i]? = some client) (hunv : client.verified = false)
    (hlive : client.socketfd ≠ -1)
    (hne : name ≠ []) (hws : ∀ c ∈ name, isspace c = false)
    (hline : cstr st.buffer = "NICK ".toList ++ name ++ "\n".toList) :
    (sendOk st.log.length = true →
      (handleData sendOk st i).log = st.log ++
          [Event.send client.socketfd (if isValidName name then ALLOWED_NAME else DENIED_NAME)] ∧
      (handleData sendOk st i).clients = st.clients.set i
          (if isValidName name then { client with verified := true, nickname := name }
           else client)) ∧
    (sendOk st.log.length = false →
      (handleData sendOk st i).log = st.log ++
          [Event.send client.socketfd (if isValidName name then ALLOWED_NAME else DENIED_NAME),
           Event.close client.socketfd] ∧
      (handleData sendOk st i).clients = st.clients.set i
          { socketfd := -1, verified := false,
            nickname := if isValidName name then name else client.nickname }) ∧
    (handleData sendOk st i).overrun =
      (st.overrun || decide (MAX_NICKNAME_LENGTH ≤ name.length)) := by
  have hi : i < st.clients.length := (List.getElem?_eq_some.1 h).1
  have hscan : sscanfNick (cstr st.buffer) = some name := by
    rw [hline]; exact sscanfNick_line name hne hws
  have hdata : handleData sendOk st i = handleUnverified sendOk st i client.socketfd := by
    unfold handleData
    simp [h, hunv]
  rw [hdata]
  cases hvalid : isValidName name
  · rw [handleUnverified_invalid sendOk st i _ name hscan hvalid]
    refine ⟨?_, ?_, by rw [sendOrRemove_overrun, not_fitsArray]⟩
    · intro hok
      rw [sendOrRemove_ok sendOk
        { st with overrun := st.overrun || !fitsArray MAX_NICKNAME_LENGTH name } i _ _
        hlive hok]
      simp only [Bool.false_eq_true, if_false, true_and]
      exact (set_same st.clients i client h).symm
    · intro hok
      rw [sendOrRemove_fail sendOk
        { st with overrun := st.overrun || !fitsArray MAX_NICKNAME_LENGTH name } i _ _
        client h (Or.inr hok)]
      simp [removeClient]
  · have h12 : name.length ≤ 12 := ((isValidName_iff_all name).1 hvalid).2.1
    have hlen : (cstr st.buffer).length ≤ MAX_NICKNAME_LENGTH + 6 := by
      rw [hline]
      simp only [List.length_append, MAX_NICKNAME_LENGTH]
      have h5 : "NICK ".toList.length = 5 := rfl
      have h1 : "\n".toList.length = 1 := rfl
      omega
    rw [handleUnverified_valid sendOk st i client name h hscan hvalid hlen]
    refine ⟨?_, ?_, by rw [sendOrRemove_overrun, not_fitsArray]⟩
    · intro hok
      rw [sendOrRemove_ok sendOk
        { st with clients := st.clients.set i { client with verified := true, nickname := name },
                  overrun := st.overrun || !fitsArray MAX_NICKNAME_LENGTH name } i _ _
        hlive hok]
      simp
    · intro hok
      rw [sendOrRemove_fail sendOk
        { st with clients := st.clients.set i { client with verified := true, nickname := name },
                  overrun := st.overrun || !fitsArray MAX_NICKNAME_LENGTH name } i _ _
        { client with verified := true, nickname := name } (by simp [hi]) (Or.inr hok)]
      simp [removeClient]

theorem nick_line_reply_witness :
    isValidName "bob".toList = true ∧
    (handleData (fun _ => true) loopNick 0).log = [Event.send 5 ALLOWED_NAME] ∧
    (handleData (fun _ => true) loopNick 0).clients =
      [{ socketfd := 5, verified := true, nickname := "bob".toList }] ∧
    (handleData (fun _ => true) loopNick 0).overrun = false := by
  have h := nick_line_reply (fun _ => true) loopNick 0
    { socketfd := 5, verified := false, nickname := [] } "bob".toList rfl rfl (by decide)
    (by decide) (by decide) (by decide)
  have hv : isValidName "bob".toList = true := by decide
  obtain ⟨hsent, -, hover⟩ := h
  obtain ⟨hlog, hclients⟩ := hsent rfl
  rw [hv] at hlog hclients
  exact ⟨hv, hlog, hclients, hover⟩

/-- C2 as stated fails in two ways.  When the `OK` reply cannot be sent, the
valid name `bob` leaves the client removed instead of verified.  And a name
with a NUL in it, which is not a valid name, ends the C string in the
buffer: `NICK bo`, NUL, `b` is answered with `OK` and verified as `bo`. -/
theorem nick_reply_unsent_removes :
    isValidName "bob".toList = true ∧
    cstr loopNick.buffer = "NICK ".toList ++ "bob".toList ++ "\n".toList ∧
    (handleData (fun _ => false) loopNick 0).log = [Event.send 5 ALLOWED_NAME, Event.close 5] ∧
    (handleData (fun _ => false) loopNick 0).clients =
      [{ socketfd := -1, verified := false, nickname := "bob".toList }] ∧
    isValidName ("bo".toList ++ NUL :: "b".toList) = false ∧
    (∀ c ∈ "bo".toList ++ NUL :: "b".toList, isspace c = false) ∧
    loopNickNul.buffer.take 10 =
      "NICK ".toList ++ ("bo".toList ++ NUL :: "b".toList) ++ "\n".toList ∧
    (handleData (fun _ => true) loopNickNul 0).log = [Event.send 5 ALLOWED_NAME] ∧
    (handleData (fun _ => true) loopNickNul 0).clients =
      [{ socketfd := 5, verified := true, nickname := "bo".toList }] := by
  decide

/-! ## Broadcast -/

theorem sendsOf_append (a b : List Event) : sendsOf (a ++ b) = sendsOf a ++ sendsOf b := by
  induction a with
  | nil => rfl
  | cons e t ih => cases e <;> simp [sendsOf, ih]

theorem broadcastGo_sends (sendOk : Nat → Bool) (echo : List Char) (clients : List ClientInfo)
    (log : List Event) :
    sendsOf (broadcastGo sendOk echo clients log).2 =
      sendsOf log ++ (liveSlots clients).map fun c => (c.socketfd, echo) := by
  induction clients generalizing log with
  | nil => simp [broadcastGo, liveSlots]
  | cons c t ih =>
      unfold broadcastGo
      by_cases hlive : c.socketfd ≠ -1
      · simp only [hlive, ne_eq, not_false_eq_true, if_true]
        cases sendOk log.length
        · simp [ih, sendsOf_append, sendsOf, liveSlots, hlive]
        · simp [ih, sendsOf_append, sendsOf, liveSlots, hlive]
      · simp only [hlive, if_false]
        simp [ih, liveSlots, hlive]

theorem echoLine_full (nickname message : List Char)
    (h : nickname.length + message.length ≤ 266) :
    echoLine nickname message =
      "MSG ".toList ++ nickname ++ " ".toList ++ message ++ "\n".toList := by
  unfold echoLine snprintf
  apply List.take_of_length_le
  simp only [List.length_append, MAX_MESSAGE_LENGTH, MAX_NICKNAME_LENGTH]
  have h4 : "MSG ".toList.length = 4 := rfl
  have h1 : " ".toList.length = 1 := rfl
  have h2 : "\n".toList.length = 1 := rfl
  omega

theorem echoLine_cut (nickname message : List Char)
    (h : nickname.length + message.length = 267) :
    echoLine nickname message = "MSG ".toList ++ nickname ++ " ".toList ++ message := by
  unfold echoLine snprintf
  have hlen : ("MSG ".toList ++ nickname ++ " ".toList ++ message).length
      = MAX_MESSAGE_LENGTH + MAX_NICKNAME_LENGTH + 6 - 1 := by
    simp only [List.length_append, MAX_MESSAGE_LENGTH, MAX_NICKNAME_LENGTH]
    have h4 : "MSG ".toList.length = 4 := rfl
    have h1 : " ".toList.length = 1 := rfl
    omega
  rw [← hlen, List.take_left]

theorem handleVerified_accept (sendOk : Nat → Bool) (st : Loop) (i : Nat) (fd : Int)
    (nickname message : List Char) (hscan : sscanfMsg (cstr st.buffer) = some message) :
    handleVerified sendOk st i fd nickname =
      broadcast sendOk (echoLine nickname message)
        { st with overrun := st.overrun || !fitsArray MAX_MESSAGE_LENGTH message } := by
  unfold handleVerified
  rw [hscan]

theorem handleVerified_reject (sendOk : Nat → Bool) (st : Loop) (i : Nat) (fd : Int)
    (nickname : List Char) (hscan : sscanfMsg (cstr st.buffer) = none) :
    handleVerified sendOk st i fd nickname =
      sendOrRemove sendOk st i fd (DENIED_MESSAGE.take DENIED_NAME.length) := by
  unfold handleVerified
  rw [hscan]

theorem handleData_verified (sendOk : Nat → Bool) (st : Loop) (i : Nat) (client : ClientInfo)
    (h : st.clients[i]? = some client) (hver : client.verified = true) :
    handleData sendOk st i = handleVerified sendOk st i client.socketfd client.nickname := by
  unfold handleData
  simp [h, hver]

/-- Fan-out of an accepted message whose text fits `message`: every slot
that holds a socket is sent the line `MSG <nickname> <text>` with its newline
once, in slot order, the other slots are sent nothing, and no write leaves
its array. -/
theorem broadcast_fanout (sendOk : Nat → Bool) (st : Loop) (i : Nat) (client : ClientInfo)
    (text : List Char) (h : st.clients[i]? = some client) (hver : client.verified = true)
    (hscan : sscanfMsg (cstr st.buffer) = some text)
    (hnick : client.nickname.length ≤ MAX_NICKNAME_LENGTH)
    (htext : fitsArray MAX_MESSAGE_LENGTH text = true) :
    sendsOf (handleData sendOk st i).log =
      sendsOf st.log ++ (liveSlots st.clients).map (fun c =>
        (c.socketfd, "MSG ".toList ++ client.nickname ++ " ".toList ++ text ++ "\n".toList)) ∧
    (handleData sendOk st i).overrun = st.overrun := by
  have hfit : client.nickname.length + text.length ≤ 266 := by
    simp only [fitsArray, decide_eq_true_eq, MAX_MESSAGE_LENGTH] at htext
    simp only [MAX_NICKNAME_LENGTH] at hnick
    omega
  rw [handleData_verified sendOk st i client h hver,
    handleVerified_accept sendOk st i _ _ text hscan, ← echoLine_full _ _ hfit]
  refine ⟨broadcastGo_sends sendOk _ st.clients st.log, ?_⟩
  simp only [broadcast, htext, Bool.not_true, Bool.or_false]

/-! ## Chat messages -/

theorem echoLine_text (nickname text : List Char)
    (hnick : nickname.length ≤ MAX_NICKNAME_LENGTH) (htext : text.length ≤ MAX_MESSAGE_LENGTH) :
    "MSG ".toList ++ nickname ++ " ".toList ++ text <+: echoLine nickname text ∧
    echoLine nickname text <+: "MSG ".toList ++ nickname ++ " ".toList ++ text ++ "\n".toList := by
  have h4 : "MSG ".toList.length = 4 := rfl
  have h1 : " ".toList.length = 1 := rfl
  have hlen : ("MSG ".toList ++ nickname ++ " ".toList ++ text).length
      ≤ MAX_MESSAGE_LENGTH + MAX_NICKNAME_LENGTH + 6 - 1 := by
    simp only [List.length_append, MAX_MESSAGE_LENGTH, MAX_NICKNAME_LENGTH] at *
    omega
  unfold echoLine snprintf
  refine ⟨?_, List.take_prefix _ _⟩
  rw [List.take_append_eq_append_take, List.take_of_length_le hlen]
  exact List.prefix_append _ _

/-- C6, amended: a verified client sends `MSG <text>` and a newline, the
text having 1 to 255 characters, no newline, no NUL, and no white space in
front, so that the line is the C string in the receive buffer.  The line is
accepted, each slot that holds a socket is sent the echo line once, and the
echo line is `MSG <nickname> <text>`, with the whole text, followed by at
most the newline.  A text of 255 characters is written past the end of
`message` by its terminator: `overrun` is set, and the rest is then the
data flow as if the array had been large enough. -/
theorem msg_line_relayed (sendOk : Nat → Bool) (st : Loop) (i : Nat) (client : ClientInfo)
    (text : List Char) (h : st.clients[i]? = some client) (hver : client.verified = true)
    (hnick : client.nickname.length ≤ MAX_NICKNAME_LENGTH)
    (hne : text ≠ []) (hlen : text.length ≤ MAX_MESSAGE_LENGTH) (hnl : '\n' ∉ text)
    (hhead : ∀ c ∈ text.head?, isspace c = false)
    (hline : cstr st.buffer = "MSG ".toList ++ text ++ "\n".toList) :
    sscanfMsg (cstr st.buffer) = some text ∧
    sendsOf (handleData sendOk st i).log =
      sendsOf st.log ++ (liveSlots st.clients).map (fun c =>
        (c.socketfd, echoLine client.nickname text)) ∧
    "MSG ".toList ++ client.nickname ++ " ".toList ++ text <+: echoLine client.nickname text ∧
    echoLine client.nickname text <+:
      "MSG ".toList ++ client.nickname ++ " ".toList ++ text ++ "\n".toList ∧
    (handleData sendOk st i).overrun =
      (st.overrun || decide (MAX_MESSAGE_LENGTH ≤ text.length)) := by
  have hscan : sscanfMsg (cstr st.buffer) = some text := by
    rw [hline]; exact sscanfMsg_line text hne hhead hnl
  have htext := echoLine_text client.nickname text hnick hlen
  refine ⟨hscan, ?_, htext.1, htext.2, ?_⟩
  · rw [handleData_verified sendOk st i client h hver,
      handleVerified_accept sendOk st i _ _ text hscan]
    exact broadcastGo_sends sendOk _ st.clients st.log
  · rw [handleData_verified sendOk st i client h hver,
      handleVerified_accept sendOk st i _ _ text hscan]
    simp only [broadcast, not_fitsArray]

theorem msg_line_relayed_witness :
    sscanfMsg (cstr (loopChat "alice".toList "MSG hi\n".toList).buffer) = some "hi".toList ∧
    sendsOf (handleData (fun _ => true) (loopChat "alice".toList "MSG hi\n".toList) 0).log =
      [(4, echoLine "alice".toList "hi".toList), (5, echoLine "alice".toList "hi".toList)] ∧
    echoLine "alice".toList "hi".toList = "MSG alice hi\n".toList ∧
    (handleData (fun _ => true) (loopChat "alice".toList "MSG hi\n".toList) 0).overrun
      = false := by
  have h := msg_line_relayed (fun _ => true) (loopChat "alice".toList "MSG hi\n".toList) 0
    { socketfd := 4, verified := true, nickname := "alice".toList } "hi".toList rfl rfl
    (by decide) (by decide) (by decide) (by decide) (by decide) (by decide)
  exact ⟨h.1, h.2.1, by decide, h.2.2.2.2⟩

/-- C6 as stated fails in three ways.  The empty text is not accepted: `MSG `
and a newline gets the reply of a rejected line.  White space in front of
the text is dropped: the text ` hi` is relayed as `hi`.  And a NUL in the
text ends the C string in the buffer: the text `h`, NUL, `i` is relayed as
`h`. -/
theorem msg_text_not_verbatim :
    cstr (loopChat "alice".toList "MSG \n".toList).buffer =
      "MSG ".toList ++ [] ++ "\n".toList ∧
    sscanfMsg (cstr (loopChat "alice".toList "MSG \n".toList).buffer) = none ∧
    (handleData (fun _ => true) (loopChat "alice".toList "MSG \n".toList) 0).log =
      [Event.send 4 "ERROR Invalid mess".toList] ∧
    cstr (loopChat "alice".toList "MSG  hi\n".toList).buffer =
      "MSG ".toList ++ " hi".toList ++ "\n".toList ∧
    sendsOf (handleData (fun _ => true) (loopChat "alice".toList "MSG  hi\n".toList) 0).log =
      [(4, "MSG alice hi\n".toList), (5, "MSG alice hi\n".toList)] ∧
    '\n' ∉ 'h' :: NUL :: "i".toList ∧
    (loopChat "alice".toList ("MSG h".toList ++ NUL :: "i\n".toList)).buffer.take 8 =
      "MSG ".toList ++ ('h' :: NUL :: "i".toList) ++ "\n".toList ∧
    sendsOf (handleData (fun _ => true)
        (loopChat "alice".toList ("MSG h".toList ++ NUL :: "i\n".toList)) 0).log =
      [(4, "MSG alice h\n".toList), (5, "MSG alice h\n".toList)] := by
  decide

/-- C5, at the failing input: the verified client `alice` sends `hello`.
Nothing is broadcast and the client stays as it is, but the reply consists
of the first 18 characters of `ERROR Invalid message!`, without a newline,
and is not the line `ERR Invalid message!`. -/
theorem denied_message_reply_is_cut :
    (handleData (fun _ => true) (loopChat "alice".toList "hello\n".toList) 0).log =
      [Event.send 4 "ERROR Invalid mess".toList] ∧
    (handleData (fun _ => true) (loopChat "alice".toList "hello\n".toList) 0).clients =
      (loopChat "alice".toList "hello\n".toList).clients ∧
    "ERROR Invalid mess".toList ≠ "ERR Invalid message!\n".toList := by
  decide

set_option maxRecDepth 100000 in
/-- C3, at the failing input: the verified client has a nickname of 12
characters and sends a text of 255 characters.  The text is accepted, and
the line sent to the two slots that hold a socket is `MSG <nickname> <text>`
without the newline. -/
theorem echo_line_loses_newline :
    nick12.length = 12 ∧ text255.length = 255 ∧
    sscanfMsg (cstr (loopChat nick12 ("MSG ".toList ++ text255 ++ "\n".toList)).buffer)
      = some text255 ∧
    sendsOf (handleData (fun _ => true)
        (loopChat nick12 ("MSG ".toList ++ text255 ++ "\n".toList)) 0).log =
      [(4, "MSG ".toList ++ nick12 ++ " ".toList ++ text255),
       (5, "MSG ".toList ++ nick12 ++ " ".toList ++ text255)] := by
  decide

set_option maxRecDepth 100000 in
/-- C7, at the failing input: the verified client `alice` sends a text of
300 characters.  The line is not rejected: `sscanf` decodes the whole text,
which does not fit `message` and is written past its end, and the echo loop
runs, with a `send` to each of the two slots that hold a socket and no reply
of a rejected line.  The line sent starts with `MSG alice ` and the first
255 characters of the text, which lie inside `message`; what follows them
depends on what lies behind the array and is not stated. -/
theorem long_text_not_rejected :
    sscanfMsg (cstr (loopChat "alice".toList
        ("MSG ".toList ++ List.replicate 300 'a' ++ "\n".toList)).buffer)
      = some (List.replicate 300 'a') ∧
    fitsArray MAX_MESSAGE_LENGTH (List.replicate 300 'a') = false ∧
    (handleData (fun _ => true) (loopChat "alice".toList
        ("MSG ".toList ++ List.replicate 300 'a' ++ "\n".toList)) 0).overrun = true ∧
    (sendsOf (handleData (fun _ => true) (loopChat "alice".toList
        ("MSG ".toList ++ List.replicate 300 'a' ++ "\n".toList)) 0).log).map Prod.fst
      = [4, 5] ∧
    ∀ p ∈ sendsOf (handleData (fun _ => true) (loopChat "alice".toList
        ("MSG ".toList ++ List.replicate 300 'a' ++ "\n".toList)) 0).log,
      "MSG alice ".toList ++ List.replicate 255 'a' <+: p.2 := by
  decide

/-! ## Lines that are not chat messages, and texts that are too long -/

theorem matchLiteral_some (lit input rest : List Char)
    (h : matchLiteral lit input = some rest) : input = lit ++ rest := by
  induction lit generalizing input with
  | nil => simp [matchLiteral] at h; simp [h]
  | cons p ps ih =>
      cases input with
      | nil => simp [matchLiteral] at h
      | cons c t =>
          unfold matchLiteral at h
          split at h
          · rename_i hpc
            rw [hpc, ih t h]; rfl
          · exact absurd h (by simp)

/-- A line that does not start with the letters `MSG` is not decoded. -/
theorem sscanfMsg_none_of_not_msg (line : List Char) (h : ¬ "MSG".toList <+: line) :
    sscanfMsg line = none := by
  unfold sscanfMsg
  cases hlit : matchLiteral "MSG".toList line with
  | none => rfl
  | some rest => exact absurd ⟨rest, (matchLiteral_some _ _ _ hlit).symm⟩ h

/-- A line of a verified client that is not decoded: nothing is broadcast,
the only `send` goes to the client itself, with the first
`strlen(DENIED_NAME)` characters of `DENIED_MESSAGE`, and the client is left
as it is unless that `send` fails. -/
theorem rejected_line_reply (sendOk : Nat → Bool) (st : Loop) (i : Nat) (client : ClientInfo)
    (h : st.clients[i]? = some client) (hver : client.verified = true)
    (hlive : client.socketfd ≠ -1)
    (hscan : sscanfMsg (cstr st.buffer) = none) :
    sendsOf (handleData sendOk st i).log =
      sendsOf st.log ++ [(client.socketfd, "ERROR Invalid mess".toList)] ∧
    (sendOk st.log.length = true → (handleData sendOk st i).clients = st.clients) ∧
    (handleData sendOk st i).overrun = st.overrun := by
  rw [handleData_verified sendOk st i client h hver,
    handleVerified_reject sendOk st i _ _ hscan]
  have hcut : DENIED_MESSAGE.take DENIED_NAME.length = "ERROR Invalid mess".toList := by decide
  rw [hcut]
  refine ⟨?_, ?_, sendOrRemove_overrun sendOk st i _ _⟩
  · rcases sendOrRemove_log sendOk st i client.socketfd "ERROR Invalid mess".toList client h
      with hlog | hlog <;> rw [hlog] <;> simp [sendsOf_append, sendsOf]
  · intro hok
    rw [sendOrRemove_ok sendOk st i _ _ hlive hok]

/-- No text is too long to be decoded: a text of more than 255 characters is
taken whole by `sscanf` and written past the end of `message`. -/
theorem oversized_text_not_rejected (sendOk : Nat → Bool) (st : Loop) (i : Nat)
    (client : ClientInfo) (text : List Char) (h : st.clients[i]? = some client)
    (hver : client.verified = true) (hlong : MAX_MESSAGE_LENGTH < text.length)
    (hnl : '\n' ∉ text) (hhead : ∀ c ∈ text.head?, isspace c = false)
    (hline : cstr st.buffer = "MSG ".toList ++ text ++ "\n".toList) :
    sscanfMsg (cstr st.buffer) = some text ∧
    fitsArray MAX_MESSAGE_LENGTH text = false ∧
    (handleData sendOk st i).overrun = true := by
  have hne : text ≠ [] := by
    intro hnil
    rw [hnil] at hlong
    exact absurd hlong (by simp)
  have hscan : sscanfMsg (cstr st.buffer) = some text := by
    rw [hline]; exact sscanfMsg_line text hne hhead hnl
  have hover : (!fitsArray MAX_MESSAGE_LENGTH text) = true := by
    rw [not_fitsArray]
    exact decide_eq_true (Nat.le_of_lt hlong)
  refine ⟨hscan, by simpa using hover, ?_⟩
  rw [handleData_verified sendOk st i client h hver,
    handleVerified_accept sendOk st i _ _ text hscan]
  simp only [broadcast, hover, Bool.or_true]

/-! ## Reading -/

theorem toSizeT_error : toSizeT (recvReturn none) = 2 ^ 64 - 1 := by decide

/-- A read of zero bytes removes the client: its socket is closed, its slot
is freed with `verified` false, and no other slot changes. -/
theorem peer_close_removes (sendOk : Nat → Bool) (recv : Nat → Option (List Char))
    (readfds : List Int) (st : Loop) (i : Nat) (client : ClientInfo)
    (h : st.clients[i]? = some client) (hlive : client.socketfd ≠ -1)
    (hready : client.socketfd ∈ readfds) (hzero : recv i = some []) :
    (serveSlot sendOk recv readfds st i).clients =
      st.clients.set i { socketfd := -1, verified := false, nickname := client.nickname } ∧
    (serveSlot sendOk recv readfds st i).log = st.log ++ [Event.close client.socketfd] ∧
    (serveSlot sendOk recv readfds st i).overrun = st.overrun := by
  unfold serveSlot
  simp only [h, hready, if_true, hzero, hlive, if_false]
  have h0 : toSizeT (recvReturn (some [])) = 0 := by decide
  simp only [h0, if_true]
  exact ⟨removeClientAt_clients _ i client h, removeClientAt_log _ i client h,
    removeClientAt_overrun _ i⟩

set_option maxRecDepth 100000 in
/-- C10, at the failing input: `recv` returns -1.  As a `size_t` this is
2^64 - 1, neither zero nor negative, so the client is not removed: the
terminator is stored outside the buffer and the buffer is handed to the
protocol handler.  With a cleared buffer the client is sent the `ERR` reply;
after the read from `alice` the buffer still holds her line, which is
broadcast again under the nickname of `bob`. -/
theorem read_error_is_dispatched :
    toSizeT (-1) = 2 ^ 64 - 1 ∧
    (serveSlot (fun _ => true) (fun _ => none) [5] loopUnverified 0).clients =
      loopUnverified.clients ∧
    (serveSlot (fun _ => true) (fun _ => none) [5] loopUnverified 0).log =
      [Event.send 5 DENIED_NAME] ∧
    (serveSlot (fun _ => true) (fun _ => none) [5] loopUnverified 0).overrun = true ∧
    (step envReadError serverTwo).map (fun st => st.clients) = some serverTwo.clients ∧
    (step envReadError serverTwo).map (fun st => sendsOf st.log) =
      some [(4, "MSG alice yo\n".toList), (5, "MSG alice yo\n".toList),
            (4, "MSG bob yo\n".toList), (5, "MSG bob yo\n".toList)] := by
  decide

set_option maxRecDepth 100000 in
/-- C1, at the failing input: a client that is not verified sends `MSG spam`,
and in the same pass the read from the verified client `bob` in the next
slot fails.  The line is answered with the `ERR` reply, but the buffer is
not cleared between the slots and the failed read is not recognised (the
slip of C10, which also stores the terminator outside the buffer): the line
is handed to the protocol handler again and `MSG bob spam` is sent to both
clients. -/
theorem unverified_line_is_broadcast :
    (step envSpam serverGuest).map (fun st => sendsOf st.log) =
      some [(4, DENIED_NAME), (4, "MSG bob spam\n".toList), (5, "MSG bob spam\n".toList)] ∧
    (step envSpam serverGuest).map (fun st => st.clients) = some serverGuest.clients ∧
    (step envSpam serverGuest).map (fun st => st.overrun) = some true := by
  decide

/-! ## Free slots are unverified -/

theorem FreeUnverified.set {clients : List ClientInfo} (h : FreeUnverified clients) (i : Nat)
    (c : ClientInfo) (hc : c.socketfd = -1 → c.verified = false) :
    FreeUnverified (clients.set i c) := by
  intro x hx
  rcases List.mem_or_eq_of_mem_set hx with hmem | rfl
  · exact h x hmem
  · exact hc

end ChatServer

/-! # Theorems on the client -/

namespace ChatClient

open ChatServer (NUL cstr snprintf)

theorem fgetsGo_length (room : Nat) (stdin : List Char) : (fgetsGo room stdin).length ≤ room := by
  induction room generalizing stdin with
  | zero => simp [fgetsGo]
  | succ n ih =>
      cases stdin with
      | nil => simp [fgetsGo]
      | cons c rest =>
          unfold fgetsGo
          split
          · simp
          · simpa using ih rest

theorem snprintf_length (size : Nat) (formatted : List Char) :
    (snprintf size formatted).length ≤ size - 1 := by
  unfold snprintf
  simp [List.length_take]

/-- Whatever is read, a line or nothing at the end of the input, the client
hands all 514 characters of `formattedMessage` to `send`. -/
theorem stdinBranch_length (input formattedMessage stdin : List Char)
    (harray : formattedMessage.length = MAX_MESSAGE_LENGTH + MAX_MESSAGE_LENGTH + 4) :
    (stdinBranchFrom input formattedMessage stdin).length = 514 := by
  have hs := snprintf_length (MAX_MESSAGE_LENGTH + MAX_MESSAGE_LENGTH + 4)
    ("MSG ".toList ++ inputAfterFgets input stdin)
  unfold stdinBranchFrom storeString
  simp only [MAX_MESSAGE_LENGTH] at *
  simp only [List.length_take, List.length_append, List.length_cons, List.length_drop, harray]
  omega

set_option maxRecDepth 100000 in
/-- C9, at the failing input: the line `hi` is read.  The client sends 514
bytes, not 7: the line `MSG hi`, the terminator, and 506 bytes of what the
array held before (here the character `x`). -/
theorem client_sends_whole_array :
    fgets MAX_MESSAGE_LENGTH "hi\n".toList = "hi\n".toList ∧
    stdinBranch (List.replicate 514 'x') "hi\n".toList =
      "MSG hi\n".toList ++ NUL :: List.replicate 506 'x' ∧
    (stdinBranch (List.replicate 514 'x') "hi\n".toList).length = 514 ∧
    4 + "hi\n".toList.length = 7 := by
  decide

end ChatClient
